import Mathlib

/-!
Verification of the semantic-cache / refinement-orchestrator core of the
msc-dissertation repository, as a shallow embedding in Lean 4.

Source files embedded:
* `src/dissertation/core/semantic_cache.py` (`_normalize`, `_hash`,
  `_cache_input`, the policy thresholds and `generate_bundle_cached`)
* `src/dissertation/core/cache_store.py` (`get_cached_by_hash`,
  `get_cached_by_similarity`, `store_bundle`)
* `src/dissertation/core/orchestrator.py` (`build_quality_reports`,
  `run_agentic`)

Python floats are modelled as `ℚ`, database tables as lists of rows,
external collaborators (OpenAI generation, embeddings, critic/refiner
agents, the scoring tools) as function parameters, exactly at the
interfaces the source imports them.
-/

namespace Dissertation

/-! ## Character-level model of Python string primitives

`_normalize` in semantic_cache.py is `re.sub(r"\s+", " ", s.strip().lower())`.
We model strings as their `List Char` data.  `isSpace` is the ASCII
whitespace class shared by Python's `str.strip` and the regex class `\s`;
`lowerChar` is ASCII lowercasing (`str.lower` restricted to ASCII, which is
all the repository's inputs use). -/

/-- ASCII whitespace: space, tab, newline, vertical tab, form feed, carriage
return.  This is the character class Python's `str.strip()` and `\s` agree
on over ASCII text. -/
def isSpace (c : Char) : Bool :=
  c.toNat = 32 || c.toNat = 9 || c.toNat = 10 || c.toNat = 11 || c.toNat = 12 || c.toNat = 13

/-- ASCII lowercasing of one character, as `str.lower` does for A–Z. -/
def lowerChar (c : Char) : Char :=
  if 65 ≤ c.toNat ∧ c.toNat ≤ 90 then Char.ofNat (c.toNat + 32) else c

/-- Model of Python str.strip: drop leading and trailing whitespace. -/
def trimWS (l : List Char) : List Char :=
  (((l.dropWhile isSpace).reverse.dropWhile isSpace)).reverse

/-- Worker for `re.sub(r"\s+", " ", ·)`: the flag records whether the
previous character belonged to a whitespace run (so the run's single
replacement space has already been emitted). -/
def collapseAux : Bool → List Char → List Char
  | _, [] => []
  | prevWS, c :: cs =>
    if isSpace c then
      if prevWS then collapseAux true cs else ' ' :: collapseAux true cs
    else c :: collapseAux false cs

/-- Model of the whitespace-collapsing regex substitution: replace each
maximal whitespace run by a single space. -/
def collapseWS (l : List Char) : List Char := collapseAux false l

/-- The body of `_normalize` on character lists: strip, lowercase, then
collapse whitespace runs. -/
def normalizeL (l : List Char) : List Char :=
  collapseWS ((trimWS l).map lowerChar)

/-- Function `_normalize` of semantic_cache.py. -/
def _normalize (s : String) : String := ⟨normalizeL s.data⟩

/-! ## `_hash`: SHA-256 hex digest over UTF-8 bytes

semantic_cache.py hashes with `hashlib.sha256(s.encode("utf-8")).hexdigest()`.
We implement SHA-256 (FIPS 180-4) over `Nat` with explicit `% 2^32`
reductions, plus UTF-8 encoding of the string's characters. -/

namespace SHA256

def M32 : Nat := 4294967296

def rotr (n x : Nat) : Nat := ((x >>> n) ||| (x <<< (32 - n))) % M32

def add32 (a b : Nat) : Nat := (a + b) % M32

def bSig0 (x : Nat) : Nat := rotr 2 x ^^^ rotr 13 x ^^^ rotr 22 x

def bSig1 (x : Nat) : Nat := rotr 6 x ^^^ rotr 11 x ^^^ rotr 25 x

def sSig0 (x : Nat) : Nat := rotr 7 x ^^^ rotr 18 x ^^^ (x >>> 3)

def sSig1 (x : Nat) : Nat := rotr 17 x ^^^ rotr 19 x ^^^ (x >>> 10)

def ch (x y z : Nat) : Nat := (x &&& y) ^^^ ((x ^^^ 4294967295) &&& z)

def maj (x y z : Nat) : Nat := (x &&& y) ^^^ (x &&& z) ^^^ (y &&& z)

def K : List Nat :=
  [1116352408, 1899447441, 3049323471, 3921009573, 961987163,
   1508970993, 2453635748, 2870763221, 3624381080, 310598401,
   607225278, 1426881987, 1925078388, 2162078206, 2614888103,
   3248222580, 3835390401, 4022224774, 264347078, 604807628,
   770255983, 1249150122, 1555081692, 1996064986, 2554220882,
   2821834349, 2952996808, 3210313671, 3336571891, 3584528711,
   113926993, 338241895, 666307205, 773529912, 1294757372,
   1396182291, 1695183700, 1986661051, 2177026350, 2456956037,
   2730485921, 2820302411, 3259730800, 3345764771, 3516065817,
   3600352804, 4094571909, 275423344, 430227734, 506948616,
   659060556, 883997877, 958139571, 1322822218, 1537002063,
   1747873779, 1955562222, 2024104815, 2227730452, 2361852424,
   2428436474, 2756734187, 3204031479, 3329325298]

def H0 : List Nat :=
  [1779033703, 3144134277, 1013904242, 2773480762, 1359893119,
   2600822924, 528734635, 1541459225]

/-- Append one extended message-schedule word. -/
def extendStep (w : List Nat) : List Nat :=
  w ++ [(sSig1 (w.getD (w.length - 2) 0) + w.getD (w.length - 7) 0 +
         sSig0 (w.getD (w.length - 15) 0) + w.getD (w.length - 16) 0) % M32]

/-- Message schedule: the 16 block words extended to 64. -/
def buildW (block : List Nat) : List Nat :=
  (List.range 48).foldl (fun w _ => extendStep w) block

/-- One compression round. -/
def round (st : List Nat) (kw : Nat × Nat) : List Nat :=
  let a := st.getD 0 0
  let b := st.getD 1 0
  let c := st.getD 2 0
  let d := st.getD 3 0
  let e := st.getD 4 0
  let f := st.getD 5 0
  let g := st.getD 6 0
  let h := st.getD 7 0
  let t1 := (h + bSig1 e + ch e f g + kw.1 + kw.2) % M32
  let t2 := (bSig0 a + maj a b c) % M32
  [add32 t1 t2, a, b, c, add32 d t1, e, f, g]

/-- Compress one 16-word block into the running hash state. -/
def compress (hs : List Nat) (block : List Nat) : List Nat :=
  let w := buildW block
  let st := (K.zip w).foldl round hs
  (hs.zip st).map fun p => add32 p.1 p.2

/-- Big-endian bytes of a 64-bit quantity. -/
def be64 (n : Nat) : List Nat :=
  [(n >>> 56) % 256, (n >>> 48) % 256, (n >>> 40) % 256, (n >>> 32) % 256,
   (n >>> 24) % 256, (n >>> 16) % 256, (n >>> 8) % 256, n % 256]

/-- SHA-256 padding: 0x80, zeros to 56 mod 64, then the bit length. -/
def pad (msg : List Nat) : List Nat :=
  msg ++ [0x80] ++ List.replicate ((119 - msg.length % 64) % 64) 0 ++ be64 (msg.length * 8)

/-- Big-endian 32-bit words from a byte list. -/
def words4 : List Nat → List Nat
  | a :: b :: c :: d :: t => (((a * 256 + b) * 256 + c) * 256 + d) :: words4 t
  | _ => []

/-- Split a word list into 16-word blocks (the padded message is always a
multiple of 16 words). -/
def blocks16 : List Nat → List (List Nat)
  | a1 :: a2 :: a3 :: a4 :: a5 :: a6 :: a7 :: a8 ::
    a9 :: a10 :: a11 :: a12 :: a13 :: a14 :: a15 :: a16 :: t =>
      [a1, a2, a3, a4, a5, a6, a7, a8, a9, a10, a11, a12, a13, a14, a15, a16] :: blocks16 t
  | _ => []

def digestWords (msg : List Nat) : List Nat :=
  (blocks16 (words4 (pad msg))).foldl compress H0

def hexDigit (n : Nat) : Char :=
  if n < 10 then Char.ofNat (48 + n) else Char.ofNat (87 + n)

def wordHex (w : Nat) : List Char :=
  [hexDigit ((w >>> 28) % 16), hexDigit ((w >>> 24) % 16), hexDigit ((w >>> 20) % 16),
   hexDigit ((w >>> 16) % 16), hexDigit ((w >>> 12) % 16), hexDigit ((w >>> 8) % 16),
   hexDigit ((w >>> 4) % 16), hexDigit (w % 16)]

/-- Hex digest of the eight state words. -/
def hex (ws : List Nat) : String := ⟨(ws.map wordHex).flatten⟩

/-- UTF-8 encoding of one character (`str.encode("utf-8")`). -/
def utf8Bytes (c : Char) : List Nat :=
  let n := c.toNat
  if n < 128 then [n]
  else if n < 2048 then [192 ||| (n >>> 6), 128 ||| (n &&& 63)]
  else if n < 65536 then
    [224 ||| (n >>> 12), 128 ||| ((n >>> 6) &&& 63), 128 ||| (n &&& 63)]
  else
    [240 ||| (n >>> 18), 128 ||| ((n >>> 12) &&& 63), 128 ||| ((n >>> 6) &&& 63), 128 ||| (n &&& 63)]

end SHA256

/-- Function `_hash` of semantic_cache.py: the SHA-256 hex digest of the
UTF-8 encoding of the string. -/
def _hash (s : String) : String :=
  SHA256.hex (SHA256.digestWords ((s.data.map SHA256.utf8Bytes).flatten))

/-! ## Epic and the fingerprint input (models/schemas.py, semantic_cache.py) -/

/-- Schema `GlossaryTerm` of models/schemas.py. -/
structure GlossaryTerm where
  term : String
  definition : String
deriving DecidableEq

/-- Schema `Epic` of models/schemas.py. -/
structure Epic where
  epic_id : String
  text : String
  glossary : List GlossaryTerm
  constraints : List String
deriving DecidableEq

/-- The glossary block of `_cache_input`: each term rendered as a bulleted
line joined by newlines, or the literal marker if that string is empty
(Python's or-fallback fires exactly on the empty string). -/
def renderGlossary (gs : List GlossaryTerm) : String :=
  let s := String.intercalate "\n" (gs.map fun g => "- " ++ g.term ++ ": " ++ g.definition)
  if s = "" then "(none)" else s

/-- The constraints block of `_cache_input`: bulleted lines joined by
newlines, or the literal marker if empty. -/
def renderConstraints (cs : List String) : String :=
  let s := String.intercalate "\n" (cs.map fun c => "- " ++ c)
  if s = "" then "(none)" else s

/-- Function `_cache_input` of semantic_cache.py: the f-string
concatenating the epic id, text, constraints block and glossary block with
their fixed labels. -/
def _cache_input (epic : Epic) : String :=
  "Epic ID: " ++ epic.epic_id ++ "\n\n" ++ epic.text ++ "\n\nConstraints:\n" ++
    renderConstraints epic.constraints ++ "\n\nGlossary:\n" ++ renderGlossary epic.glossary

/-- The fingerprint of an Epic: `_hash(_normalize(_cache_input(epic)))`,
as computed at the top of `generate_bundle_cached`. -/
def fingerprint (epic : Epic) : String := _hash (_normalize (_cache_input epic))

/-! ## The store (db_models.py / cache_store.py)

The two SQLAlchemy tables are modelled as lists of rows in insertion
order; `s.scalar(select(...))` point lookups are `List.find?` (first
matching row); auto-increment primary keys are the `next…Id` counters.
Bundle content (`content_json`, a JSON dict opaque to the cache) is a type
parameter `β`; pydantic's `model_dump`/`model_validate` round-trip is the
identity on it.  `created_at` timestamps carry no logic and are omitted. -/

/-- One row of the `requirements` table. -/
structure RequirementRow where
  id : Nat
  raw_text : String
  normalized_text : String
  text_hash : String
  embedding : Option (List ℚ)
deriving DecidableEq

/-- The `cache_metadata` dict assembled by `store_bundle` (Python drops
`None` entries; `Option` models presence). -/
structure StoreMeta where
  cache_hit : Option String
  similarity : Option ℚ
  source_requirement_id : Option Nat
  policy_version : Option String
  prompt_version : String
  model : String
deriving DecidableEq

/-- One row of the `artifacts` table. -/
structure ArtifactRow (β : Type) where
  id : Nat
  requirement_id : Nat
  output_type : String
  content_json : β
  model : String
  prompt_version : String
  metadata_json : StoreMeta
deriving DecidableEq

/-- The persistence store: both tables plus auto-increment counters. -/
structure Store (β : Type) where
  reqs : List RequirementRow
  arts : List (ArtifactRow β)
  nextReqId : Nat
  nextArtId : Nat
deriving DecidableEq

/-- Well-formedness maintained by the database's auto-increment keys:
every row id is below the table's next id. -/
def Store.WF (db : Store β) : Prop :=
  (∀ r ∈ db.reqs, r.id < db.nextReqId) ∧ (∀ a ∈ db.arts, a.requirement_id < db.nextReqId)

instance (db : Store β) : Decidable db.WF := by
  unfold Store.WF
  infer_instance

/-- Function `get_cached_by_hash` of cache_store.py: first requirement row with the
given hash, joined to its first artifact row. -/
def get_cached_by_hash (db : Store β) (text_hash : String) : Option β :=
  match db.reqs.find? (fun r => r.text_hash == text_hash) with
  | none => none
  | some req =>
    match db.arts.find? (fun a => a.requirement_id == req.id) with
    | none => none
    | some art => some art.content_json

/-- Function `get_cached_by_similarity` of cache_store.py.  The SQL nearest-neighbor
scan (top-1 row by cosine distance among rows with a non-null embedding and
a bundle artifact) is the collaborator `nearest`, returning
`(content_json, distance, requirement id)`; the in-scope logic converts
distance to similarity as `1 - dist` and rejects best matches below
`min_similarity`. -/
def get_cached_by_similarity (nearest : List ℚ → Option (β × ℚ × Nat))
    (embedding : List ℚ) (min_similarity : ℚ) : Option (β × ℚ × Nat) :=
  match nearest embedding with
  | none => none
  | some (bundle_json, dist, req_id) =>
    let similarity := 1 - dist
    if similarity < min_similarity then none else some (bundle_json, similarity, req_id)

/-- Function `store_bundle` of cache_store.py: if a requirement with this hash
exists, attach an artifact only if it has none yet (silent no-op
otherwise); else create requirement and artifact in one transaction. -/
def store_bundle (db : Store β) (raw_text normalized_text text_hash : String)
    (embedding : Option (List ℚ)) (bundle_json : β) (model prompt_version : String)
    (cache_hit : Option String) (similarity : Option ℚ)
    (source_requirement_id : Option Nat) (policy_version : Option String) : Store β :=
  let cache_metadata : StoreMeta :=
    ⟨cache_hit, similarity, source_requirement_id, policy_version, prompt_version, model⟩
  match db.reqs.find? (fun r => r.text_hash == text_hash) with
  | some existing_req =>
    match db.arts.find? (fun a => a.requirement_id == existing_req.id) with
    | some _ => db
    | none =>
      { db with
        arts := db.arts ++
          [⟨db.nextArtId, existing_req.id, "bundle", bundle_json, model, prompt_version,
            cache_metadata⟩],
        nextArtId := db.nextArtId + 1 }
  | none =>
    { reqs := db.reqs ++ [⟨db.nextReqId, raw_text, normalized_text, text_hash, embedding⟩],
      arts := db.arts ++
        [⟨db.nextArtId, db.nextReqId, "bundle", bundle_json, model, prompt_version,
          cache_metadata⟩],
      nextReqId := db.nextReqId + 1,
      nextArtId := db.nextArtId + 1 }

/-! ## Cache policy engine (semantic_cache.py) -/

/-- Policy thresholds (cache_policy_v1). -/
def REUSE_THRESHOLD : ℚ := 92/100

def ADAPT_THRESHOLD : ℚ := 75/100

def POLICY_VERSION : String := "cache_policy_v1"

/-- The four cache decisions (the `cache_hit` tag of the returned meta
dict; the constant `user_message` strings are presentation only and
omitted). -/
inductive CacheHitKind
  | hash
  | semantic_reuse
  | semantic_adapt
  | miss
deriving DecidableEq

/-- The meta dict returned by `generate_bundle_cached` (its constant
`policy_version`/`user_message` entries omitted). -/
structure CacheMeta where
  cache_hit : CacheHitKind
  similarity : Option ℚ
  source_requirement_id : Option Nat
deriving DecidableEq

/-- Result of one `generate_bundle_cached` call: the returned bundle and
meta, the store state afterwards, and how many times the generative
collaborator (`generate_with_openai`) was invoked. -/
structure CacheResult (β : Type) where
  bundle : β
  meta : CacheMeta
  db : Store β
  gen_calls : Nat
deriving DecidableEq

/-- The shared miss tail of `generate_bundle_cached`: generate fresh and
store with `cache_hit="miss"`, `prompt_version="v1"`. -/
def miss_path (gen_fresh : Epic → β) (model : String) (epic : Epic)
    (raw norm h : String) (emb : List ℚ) (db : Store β) : CacheResult β :=
  let bundle := gen_fresh epic
  let db2 := store_bundle db raw norm h (some emb) bundle model "v1"
    (some "miss") none none (some POLICY_VERSION)
  ⟨bundle, ⟨.miss, none, none⟩, db2, 1⟩

/-- Function `generate_bundle_cached` of semantic_cache.py.  Collaborators:
`embed_text` (openai_client), `simLookup` (the imported
`get_cached_by_similarity`, kept as a parameter so adapter inconsistency
can be expressed), `gen_fresh`/`gen_adapt` (the two modes of
`generate_with_openai`), `model` (`get_model()`).  The source's "robust
unpacking" of a 2- or 3-tuple is modelled by the 3-tuple its actual store
returns, and its dead `sim_hit = None` guardrail write (nothing reads
`sim_hit` afterwards) is not represented. -/
def generate_bundle_cached (embed_text : String → List ℚ)
    (simLookup : List ℚ → ℚ → Option (β × ℚ × Nat))
    (gen_fresh : Epic → β) (gen_adapt : Epic → β → ℚ → β) (model : String)
    (epic : Epic) (db : Store β) : CacheResult β :=
  let raw := _cache_input epic
  let norm := _normalize raw
  let h := _hash norm
  match get_cached_by_hash db h with
  | some cached => ⟨cached, ⟨.hash, none, none⟩, db, 0⟩
  | none =>
    let emb := embed_text norm
    match simLookup emb ADAPT_THRESHOLD with
    | some (cached_json, sim, source_requirement_id) =>
      if REUSE_THRESHOLD ≤ sim then
        ⟨cached_json, ⟨.semantic_reuse, some sim, some source_requirement_id⟩, db, 0⟩
      else if ADAPT_THRESHOLD ≤ sim ∧ sim < REUSE_THRESHOLD then
        let adapted := gen_adapt epic cached_json sim
        let db2 := store_bundle db raw norm h (some emb) adapted model "v1_adapt"
          (some "semantic_adapt") (some sim) (some source_requirement_id) (some POLICY_VERSION)
        ⟨adapted, ⟨.semantic_adapt, some sim, some source_requirement_id⟩, db2, 1⟩
      else
        miss_path gen_fresh model epic raw norm h emb db
    | none => miss_path gen_fresh model epic raw norm h emb db

/-! ## Quality gate (orchestrator.py `build_quality_reports`)

The scoring tools (gherkin_validator, trace_checker, ambiguity_detector,
invest_scorer) are out-of-scope collaborators; their outputs for the fixed
epic/requirement set are parameters.  Python's `story.story_id in v` is
substring containment. -/

/-- Substring test on character lists (Python's `in` operator). -/
def listContainsSub (pat : List Char) : List Char → Bool
  | [] => pat.isEmpty
  | c :: t => pat.isPrefixOf (c :: t) || listContainsSub pat t

/-- Python substring containment test for strings. -/
def strContains (hay pat : String) : Bool := listContainsSub pat.data hay.data

/-- Schema `UserStory` of models/schemas.py (fields relevant to scoring). -/
structure UserStory where
  story_id : String
  epic_id : String
  role : String
  goal : String
  benefit : String
  story_text : String
deriving DecidableEq

/-- Schema `InvestScores` of models/schemas.py (each sub-score is an int 1–5;
modelled in ℚ, in which the aggregation arithmetic happens). -/
structure InvestScores where
  I : ℚ
  N : ℚ
  V : ℚ
  E : ℚ
  S : ℚ
  T : ℚ
deriving DecidableEq

/-- Schema `QualityReport` of models/schemas.py. -/
structure QualityReport where
  story_id : String
  invest : InvestScores
  gherkin_valid : Bool
  ambiguities : List String
  violations : List String
  overall_score : ℚ
deriving DecidableEq

/-- Function `build_quality_reports` of orchestrator.py.  `validate_all` is the
(gherkin-ok, violations) result for the set's scenarios, `check_trace`
the (trace-ok, violations) result, `ambiguities` the detector output and
`score_story_invest` the per-story scorer (fixed scenarios).  Returns
(reports, hard_ok, hard_violations, req_avg) exactly as the source. -/
def build_quality_reports (validate_all : Bool × List String)
    (check_trace : Bool × List String) (ambiguities : List String)
    (score_story_invest : UserStory → InvestScores × List String)
    (stories : List UserStory) : List QualityReport × Bool × List String × ℚ :=
  let g_ok := validate_all.1
  let t_ok := check_trace.1
  let hard_ok := g_ok && t_ok
  let hard_violations := validate_all.2 ++ check_trace.2
  let per : List (QualityReport × ℚ) := stories.map fun story =>
    let scores := (score_story_invest story).1
    let invest_issues := (score_story_invest story).2
    let invest_avg := (scores.I + scores.N + scores.V + scores.E + scores.S + scores.T) / 6
    let penalty : ℚ := (2/10) * invest_issues.length
      + (3/10) * (hard_violations.filter fun v => strContains v story.story_id).length
      + (5/100) * (ambiguities.filter fun a => strContains a story.story_id).length
    let overall := max 1 (min 5 (invest_avg - penalty))
    (⟨story.story_id, scores, g_ok, ambiguities, invest_issues ++ hard_violations, overall⟩,
      overall)
  let reports := per.map Prod.fst
  let overall_scores := per.map Prod.snd
  let req_avg := overall_scores.sum / (max 1 overall_scores.length : ℕ)
  (reports, hard_ok, hard_violations, req_avg)

/-! ## Refinement orchestrator (orchestrator.py `run_agentic`)

The loop is modelled over an abstract requirement-set type `ρ`.
Collaborators: `critic` (critic_agent, per iteration), `refine`
(refiner_agent composed with `_make_req`, per iteration), and the
deterministic scoring `hardOf`/`avgOf` (`build_quality_reports` applied to
a requirement set) together with `scoreErrs` marking passes whose
scoring step raises.  `Except.error` models a raised exception.  The
`RunOut` record returns, besides the function's Python return value and
the audit log, the loop's final `best_req`/`best_score` locals so the
Best-Result Pointer can be specified. -/

/-- The critic result (critic_agent): `should_iterate`, `summary`, and the
edit list's length. -/
structure Critique where
  should_iterate : Bool
  summary : String
  edits_count : Nat
deriving DecidableEq

/-- One audit record, as written by `audit.log` (timestamps and free-text
payload fields carry no control logic and are omitted). -/
inductive AuditEvent
  | iteration_result (iteration : Nat) (avg_score : ℚ) (hard_ok : Bool) (edits_count : Nat)
  | critique (iteration : Nat) (should_iterate : Bool)
  | error (iteration : Nat)
deriving DecidableEq

/-- Result of a `run_agentic` call: the returned requirement set, the audit
log, and the final values of the `best_req`/`best_score` locals. -/
structure RunOut (ρ : Type) where
  result : ρ
  audit : List AuditEvent
  best_req : ρ
  best_score : ℚ
deriving DecidableEq

/-- The `for it in range(1, max_iters + 1)` loop of `run_agentic`,
recursing on the remaining iteration budget. -/
def run_iters (critic : Nat → ρ → Except String Critique)
    (refine : Nat → ρ → Critique → Except String ρ)
    (scoreErrs : Nat → ρ → Bool) (hardOf : ρ → Bool) (avgOf : ρ → ℚ)
    (target_score : ℚ) :
    Nat → Nat → ρ → ρ → ℚ → List AuditEvent → RunOut ρ
  | _, 0, _req, best_req, best_score, audit => ⟨best_req, audit, best_req, best_score⟩
  | it, remaining + 1, req, best_req, best_score, audit =>
    match critic it req with
    | .error _ => ⟨best_req, audit ++ [.error it], best_req, best_score⟩
    | .ok crit =>
      let audit := audit ++ [.critique it crit.should_iterate]
      if crit.should_iterate = false then ⟨req, audit, best_req, best_score⟩
      else
        match refine it req crit with
        | .error _ => ⟨best_req, audit ++ [.error it], best_req, best_score⟩
        | .ok req' =>
          if scoreErrs it req' then ⟨best_req, audit ++ [.error it], best_req, best_score⟩
          else
            let hard_ok := hardOf req'
            let avg_score := avgOf req'
            let audit := audit ++ [.iteration_result it avg_score hard_ok crit.edits_count]
            let best_req' := if hard_ok = true ∧ best_score ≤ avg_score then req' else best_req
            let best_score' := if hard_ok = true ∧ best_score ≤ avg_score then avg_score
              else best_score
            if hard_ok = true ∧ target_score ≤ avg_score then ⟨req', audit, best_req', best_score'⟩
            else
              run_iters critic refine scoreErrs hardOf avgOf target_score
                (it + 1) remaining req' best_req' best_score' audit

/-- Function `run_agentic` of orchestrator.py, starting from the already generated
and scored iteration-0 requirement set `req0` (generation happens before
the loop; its audit record is the first entry). -/
def run_agentic (critic : Nat → ρ → Except String Critique)
    (refine : Nat → ρ → Critique → Except String ρ)
    (scoreErrs : Nat → ρ → Bool) (hardOf : ρ → Bool) (avgOf : ρ → ℚ)
    (max_iters : Nat) (target_score : ℚ) (force_min_iters : Int) (req0 : ρ) : RunOut ρ :=
  let hard_ok := hardOf req0
  let avg_score := avgOf req0
  let audit := [AuditEvent.iteration_result 0 avg_score hard_ok 0]
  let best_req := req0
  let best_score := avg_score
  if hard_ok = true ∧ target_score ≤ avg_score ∧ force_min_iters ≤ 0 then
    ⟨best_req, audit, best_req, best_score⟩
  else
    run_iters critic refine scoreErrs hardOf avgOf target_score 1 max_iters
      req0 best_req best_score audit

/-! ## Spec-side definitions and specification helpers

`clamp`/`spec_story_score`/`spec_run_score` follow the words of the
specification's §4.4 aggregation formula; the claim theorem for C3 relates
them to `build_quality_reports` above, which is translated from the
source. -/

/-- The clamp function as written in the spec. -/
def clamp (lo hi x : ℚ) : ℚ := max lo (min hi x)

/-- The spec's per-story aggregate:
`clamp(1, 5, mean(six sub-scores) - 0.2*#invest_issues -
0.3*#hard_violations_mentioning_story - 0.05*#ambiguities_mentioning_story)`. -/
def spec_story_score (subs : InvestScores) (nInvest nHard nAmb : Nat) : ℚ :=
  clamp 1 5 ((subs.I + subs.N + subs.V + subs.E + subs.S + subs.T) / 6
    - (2/10) * nInvest - (3/10) * nHard - (5/100) * nAmb)

/-- The spec's run-level score: arithmetic mean of per-story aggregates,
`0` if there are no stories. -/
def spec_run_score (xs : List ℚ) : ℚ := if xs = [] then 0 else xs.sum / xs.length

/-- No bundle artifact is attached yet under fingerprint `F` (the state in
which a `store_bundle` call actually writes the bundle). -/
def Store.noBundleFor (db : Store β) (F : String) : Bool :=
  match db.reqs.find? (fun r => r.text_hash == F) with
  | some r => (db.arts.find? (fun a => a.requirement_id == r.id)).isNone
  | none => true

/-- Recognizer for `error` audit records. -/
def AuditEvent.isError : AuditEvent → Bool
  | .error _ => true
  | _ => false

/-- Recognizer for `critique` audit records (one per loop pass entered). -/
def AuditEvent.isCritique : AuditEvent → Bool
  | .critique _ _ => true
  | _ => false

/-! ### Facts about the normalization pipeline (for claim C10) -/

theorem isSpace_lowerChar (c : Char) : isSpace (lowerChar c) = isSpace c := by
  unfold lowerChar
  split
  · next h =>
    obtain ⟨h1, h2⟩ := h
    simp only [isSpace]
    generalize hg : c.toNat = n at h1 h2 ⊢
    interval_cases n <;> decide
  · rfl

theorem lowerChar_lowerChar (c : Char) : lowerChar (lowerChar c) = lowerChar c := by
  unfold lowerChar
  split
  · next h =>
    obtain ⟨h1, h2⟩ := h
    generalize hg : c.toNat = n at h1 h2 ⊢
    interval_cases n <;> decide
  · rfl

/-- The head of a `dropWhile` residue fails the predicate. -/
theorem dropWhile_cons_head {p : α → Bool} {l : List α} {c : α} {t : List α}
    (h : l.dropWhile p = c :: t) : p c = false := by
  induction l with
  | nil => simp at h
  | cons a as ih =>
    rw [List.dropWhile_cons] at h
    by_cases hp : p a = true
    · rw [if_pos hp] at h
      exact ih h
    · rw [if_neg hp] at h
      cases h
      simpa using hp

theorem head_isPrefix {l₁ l₂ : List α} (h : l₁ <+: l₂) (a : α) (t : List α)
    (ha : l₁ = a :: t) : ∃ t₂, l₂ = a :: t₂ := by
  obtain ⟨r, rfl⟩ := h
  subst ha
  exact ⟨t ++ r, rfl⟩

/-- After `strip`, the string has no leading whitespace. -/
theorem dropWhile_trimWS (l : List Char) :
    (trimWS l).dropWhile isSpace = trimWS l := by
  unfold trimWS
  cases hv : ((l.dropWhile isSpace).reverse.dropWhile isSpace).reverse with
  | nil => rfl
  | cons c t =>
    have hsuf : (l.dropWhile isSpace).reverse.dropWhile isSpace
        <:+ (l.dropWhile isSpace).reverse := List.dropWhile_suffix isSpace
    have hpre := List.reverse_prefix.mpr hsuf
    rw [List.reverse_reverse] at hpre
    obtain ⟨t₂, ht₂⟩ := head_isPrefix hpre c t hv
    have hc : isSpace c = false := dropWhile_cons_head ht₂
    simp [List.dropWhile_cons, hc]

/-- After `strip`, the string has no trailing whitespace (phrased on the
reverse). -/
theorem dropWhile_reverse_trimWS (l : List Char) :
    (trimWS l).reverse.dropWhile isSpace = (trimWS l).reverse := by
  unfold trimWS
  rw [List.reverse_reverse]
  exact List.dropWhile_idempotent _ _

theorem collapseAux_idem (l : List Char) :
    ∀ b, collapseAux b (collapseAux b l) = collapseAux b l := by
  induction l with
  | nil => intro b; rfl
  | cons c cs ih =>
    intro b
    by_cases hc : isSpace c = true
    · cases b with
      | true => simp [collapseAux, hc, ih true]
      | false =>
        simp only [collapseAux, hc, if_true, if_false]
        have hsp : isSpace ' ' = true := by decide
        simp [collapseAux, hsp, ih true]
    · have hc' : isSpace c = false := by simpa using hc
      simp [collapseAux, hc', ih false]

theorem map_lowerChar_collapseAux (l : List Char) :
    ∀ b, (collapseAux b l).map lowerChar = collapseAux b (l.map lowerChar) := by
  induction l with
  | nil => intro b; rfl
  | cons c cs ih =>
    intro b
    by_cases hc : isSpace c = true
    · have hlc : isSpace (lowerChar c) = true := by rw [isSpace_lowerChar]; exact hc
      cases b with
      | true => simp [collapseAux, hc, hlc, ih true]
      | false =>
        have hsp : lowerChar ' ' = ' ' := by decide
        simp [collapseAux, hc, hlc, ih true, hsp]
    · have hc' : isSpace c = false := by simpa using hc
      have hlc : isSpace (lowerChar c) = false := by rw [isSpace_lowerChar]; exact hc'
      simp [collapseAux, hc', hlc, ih false]

/-- If the input has no leading whitespace, neither does the collapsed
output. -/
theorem dropWhile_collapseAux (l : List Char) (h : l.dropWhile isSpace = l) :
    (collapseAux false l).dropWhile isSpace = collapseAux false l := by
  cases l with
  | nil => rfl
  | cons c cs =>
    have hc : isSpace c = false := by
      by_contra hcon
      have hc' : isSpace c = true := by simpa using hcon
      rw [List.dropWhile_cons, if_pos hc'] at h
      have hlen := congrArg List.length h
      have := (List.dropWhile_suffix (l := cs) isSpace).length_le
      simp at hlen
      omega
    simp [collapseAux, hc, List.dropWhile_cons]

/-- Collapsing preserves a non-whitespace final character. -/
theorem collapseAux_append_last (c : Char) (hc : isSpace c = false) :
    ∀ (ys : List Char) (b : Bool), ∃ zs, collapseAux b (ys ++ [c]) = zs ++ [c] := by
  intro ys
  induction ys with
  | nil =>
    intro b
    exact ⟨[], by simp [collapseAux, hc]⟩
  | cons d ds ih =>
    intro b
    by_cases hd : isSpace d = true
    · cases b with
      | true =>
        obtain ⟨zs, hzs⟩ := ih true
        exact ⟨zs, by simp [collapseAux, hd, hzs]⟩
      | false =>
        obtain ⟨zs, hzs⟩ := ih true
        exact ⟨' ' :: zs, by simp [collapseAux, hd, hzs]⟩
    · have hd' : isSpace d = false := by simpa using hd
      obtain ⟨zs, hzs⟩ := ih false
      exact ⟨d :: zs, by simp [collapseAux, hd', hzs]⟩

theorem isSpace_comp_lowerChar : isSpace ∘ lowerChar = isSpace := by
  funext c; exact isSpace_lowerChar c

/-- Idempotence of the character-level normalization pipeline. -/
theorem normalizeL_idempotent (l : List Char) :
    normalizeL (normalizeL l) = normalizeL l := by
  have hy_head : (((trimWS l).map lowerChar).dropWhile isSpace) = (trimWS l).map lowerChar := by
    rw [List.dropWhile_map, isSpace_comp_lowerChar, dropWhile_trimWS]
  have hy_tail : (((trimWS l).map lowerChar).reverse.dropWhile isSpace)
      = ((trimWS l).map lowerChar).reverse := by
    rw [← List.map_reverse, List.dropWhile_map, isSpace_comp_lowerChar,
      dropWhile_reverse_trimWS, List.map_reverse]
  set y := (trimWS l).map lowerChar with hy
  set x := collapseAux false y with hx
  -- (a) x is strip-fixed
  have hx_head : x.dropWhile isSpace = x := dropWhile_collapseAux y hy_head
  have hx_tail : x.reverse.dropWhile isSpace = x.reverse := by
    cases hyr : y.reverse with
    | nil =>
      have : y = [] := by
        have := congrArg List.reverse hyr
        simpa using this
      simp [hx, this, collapseAux]
    | cons c r =>
      have hc : isSpace c = false := by
        rw [hyr] at hy_tail
        by_contra hcon
        have hc' : isSpace c = true := by simpa using hcon
        rw [List.dropWhile_cons, if_pos hc'] at hy_tail
        have hlen := congrArg List.length hy_tail
        have := (List.dropWhile_suffix (l := r) isSpace).length_le
        simp at hlen
        omega
      have hydecomp : y = r.reverse ++ [c] := by
        have := congrArg List.reverse hyr
        simpa using this
      obtain ⟨zs, hzs⟩ := collapseAux_append_last c hc r.reverse false
      rw [hx, hydecomp, hzs]
      simp [List.dropWhile_cons, hc]
  have htrim : trimWS x = x := by
    unfold trimWS
    rw [hx_head, hx_tail, List.reverse_reverse]
  -- (b) x is lower-fixed
  have hmap : x.map lowerChar = x := by
    rw [hx, map_lowerChar_collapseAux, hy, List.map_map]
    have : (lowerChar ∘ lowerChar) = lowerChar := by
      funext c; exact lowerChar_lowerChar c
    rw [this]
  -- assemble
  show collapseWS ((trimWS x).map lowerChar) = x
  rw [htrim, hmap, hx]
  unfold collapseWS
  exact collapseAux_idem y false

/-- C10: `_normalize` is idempotent (see the claim theorem below). -/
theorem _normalize_idempotent (s : String) : _normalize (_normalize s) = _normalize s := by
  show (⟨normalizeL (String.data ⟨normalizeL s.data⟩)⟩ : String) = ⟨normalizeL s.data⟩
  rw [show String.data ⟨normalizeL s.data⟩ = normalizeL s.data from rfl,
    normalizeL_idempotent]


/-! ## Claim theorems -/

/-- C10: the normalization function used to build fingerprints is
idempotent: for every string `s`, `_normalize (_normalize s) = _normalize s`,
so feeding an already-normalized text back through normalization (and hence
hashing) yields the same fingerprint. -/
theorem C10_normalize_idempotent (s : String) :
    _normalize (_normalize s) = _normalize s ∧
      _hash (_normalize (_normalize s)) = _hash (_normalize s) :=
  ⟨_normalize_idempotent s, congrArg _hash (_normalize_idempotent s)⟩

set_option maxRecDepth 100000 in
/-- C8 counterexample: two Epics with identical text, constraints and
glossary but different `epic_id` values get different fingerprints — the
`epic_id` is part of `_cache_input`, so the normalized content and hence
the SHA-256 digest differ.  This refutes the claim that the Fingerprint
Normalizer produces the same fingerprint for both. -/
theorem C8_counterexample :
    fingerprint ⟨"epic-a", "t", [], []⟩ ≠ fingerprint ⟨"epic-b", "t", [], []⟩ ∧
    _normalize (_cache_input ⟨"epic-a", "t", [], []⟩) ≠
      _normalize (_cache_input ⟨"epic-b", "t", [], []⟩) ∧
    (⟨"epic-a", "t", [], []⟩ : Epic).text = (⟨"epic-b", "t", [], []⟩ : Epic).text ∧
    (⟨"epic-a", "t", [], []⟩ : Epic).constraints = (⟨"epic-b", "t", [], []⟩ : Epic).constraints ∧
    (⟨"epic-a", "t", [], []⟩ : Epic).glossary = (⟨"epic-b", "t", [], []⟩ : Epic).glossary ∧
    (⟨"epic-a", "t", [], []⟩ : Epic).epic_id ≠ (⟨"epic-b", "t", [], []⟩ : Epic).epic_id := by
  refine ⟨by decide, by decide, rfl, rfl, rfl, by decide⟩

/-- C8 amended: the epic_id is part of the fingerprinted content, so Epics
differing only in epic_id do not in general share a fingerprint.  Proved:
(i) Epics with field-wise identical id, text, constraints and glossary
share a fingerprint; (ii) the fingerprint depends only on the normalized
cache input (equal normalized inputs give equal fingerprints); (iii) for
fixed other fields, distinct ids give distinct raw cache inputs; (iv) two
ids that differ only up to normalization (here by case) still share a
fingerprint, so distinct ids do not always separate fingerprints — only
the counterexample's ids, which survive normalization as distinct, do. -/
theorem C8_amended_fingerprint_keying :
    (∀ e1 e2 : Epic, e1.epic_id = e2.epic_id → e1.text = e2.text →
      e1.constraints = e2.constraints → e1.glossary = e2.glossary →
      fingerprint e1 = fingerprint e2) ∧
    (∀ e1 e2 : Epic, _normalize (_cache_input e1) = _normalize (_cache_input e2) →
      fingerprint e1 = fingerprint e2) ∧
    (∀ e1 e2 : Epic, e1.text = e2.text → e1.constraints = e2.constraints →
      e1.glossary = e2.glossary → e1.epic_id ≠ e2.epic_id →
      _cache_input e1 ≠ _cache_input e2) ∧
    (fingerprint ⟨"EPIC-A", "t", [], []⟩ = fingerprint ⟨"epic-a", "t", [], []⟩ ∧
      ("EPIC-A" : String) ≠ "epic-a") := by
  refine ⟨?_, ?_, ?_, ?_, ?_⟩
  · intro e1 e2 h1 h2 h3 h4
    cases e1
    cases e2
    simp_all
  · intro e1 e2 h
    unfold fingerprint
    exact congrArg _hash h
  · intro e1 e2 h2 h3 h4 hne heq
    apply hne
    unfold _cache_input at heq
    rw [h2, h3, h4] at heq
    have hdata := congrArg String.data heq
    simp only [String.data_append] at hdata
    have h5 := List.append_cancel_left (List.append_cancel_right (List.append_cancel_right
      (List.append_cancel_right (List.append_cancel_right (List.append_cancel_right
        (List.append_cancel_right hdata))))))
    exact String.ext h5
  · show _hash (_normalize (_cache_input ⟨"EPIC-A", "t", [], []⟩)) =
      _hash (_normalize (_cache_input ⟨"epic-a", "t", [], []⟩))
    exact congrArg _hash (by decide)
  · decide

/-- Witness for C8 amended: the universally quantified conjuncts applied at
concrete Epics. -/
theorem C8_amended_fingerprint_keying_witness :
    fingerprint ⟨"e", "t", [], []⟩ = fingerprint ⟨"e", "t", [], []⟩ ∧
    _cache_input ⟨"epic-a", "t", [], []⟩ ≠ _cache_input ⟨"epic-b", "t", [], []⟩ :=
  ⟨C8_amended_fingerprint_keying.1 ⟨"e", "t", [], []⟩ ⟨"e", "t", [], []⟩ rfl rfl rfl rfl,
    C8_amended_fingerprint_keying.2.2.1 ⟨"epic-a", "t", [], []⟩ ⟨"epic-b", "t", [], []⟩
      rfl rfl rfl (by decide)⟩

/-- C2: with the store's similarity lookup in place, band selection uses
inclusive lower bounds: similarity `s = 1 - dist ≥ 0.92` is SEMANTIC_REUSE
(no generative call, no store write), `0.75 ≤ s < 0.92` is SEMANTIC_ADAPT
(one adapt-mode generative call), and `s < 0.75` is a MISS with a fresh
generation (the lookup filters it out). -/
theorem C2_threshold_bands {β : Type} (nearest : List ℚ → Option (β × ℚ × Nat))
    (embed_text : String → List ℚ) (gen_fresh : Epic → β) (gen_adapt : Epic → β → ℚ → β)
    (model : String) (epic : Epic) (db : Store β) (b : β) (d : ℚ) (rid : Nat)
    (hmiss : get_cached_by_hash db (_hash (_normalize (_cache_input epic))) = none)
    (hnear : nearest (embed_text (_normalize (_cache_input epic))) = some (b, d, rid)) :
    (REUSE_THRESHOLD ≤ 1 - d →
      (generate_bundle_cached embed_text (get_cached_by_similarity nearest)
          gen_fresh gen_adapt model epic db) =
        ⟨b, ⟨.semantic_reuse, some (1 - d), some rid⟩, db, 0⟩) ∧
    (ADAPT_THRESHOLD ≤ 1 - d → 1 - d < REUSE_THRESHOLD →
      (generate_bundle_cached embed_text (get_cached_by_similarity nearest)
          gen_fresh gen_adapt model epic db).meta =
        ⟨.semantic_adapt, some (1 - d), some rid⟩ ∧
      (generate_bundle_cached embed_text (get_cached_by_similarity nearest)
          gen_fresh gen_adapt model epic db).bundle = gen_adapt epic b (1 - d) ∧
      (generate_bundle_cached embed_text (get_cached_by_similarity nearest)
          gen_fresh gen_adapt model epic db).gen_calls = 1) ∧
    (1 - d < ADAPT_THRESHOLD →
      (generate_bundle_cached embed_text (get_cached_by_similarity nearest)
          gen_fresh gen_adapt model epic db).meta = ⟨.miss, none, none⟩ ∧
      (generate_bundle_cached embed_text (get_cached_by_similarity nearest)
          gen_fresh gen_adapt model epic db).bundle = gen_fresh epic ∧
      (generate_bundle_cached embed_text (get_cached_by_similarity nearest)
          gen_fresh gen_adapt model epic db).gen_calls = 1) := by
  have hAR : ADAPT_THRESHOLD < REUSE_THRESHOLD := by
    unfold ADAPT_THRESHOLD REUSE_THRESHOLD
    norm_num
  refine ⟨?_, ?_, ?_⟩
  · intro h1
    have hnotlow : ¬(1 - d < ADAPT_THRESHOLD) := not_lt.mpr (hAR.le.trans h1)
    simp only [generate_bundle_cached, hmiss, get_cached_by_similarity, hnear, if_neg hnotlow,
      if_pos h1]
  · intro h1 h2
    have hnotlow : ¬(1 - d < ADAPT_THRESHOLD) := not_lt.mpr h1
    have hnotreuse : ¬(REUSE_THRESHOLD ≤ 1 - d) := not_le.mpr h2
    simp only [generate_bundle_cached, hmiss, get_cached_by_similarity, hnear, if_neg hnotlow,
      if_neg hnotreuse, if_pos (And.intro h1 h2)]
    exact ⟨trivial, trivial, trivial⟩
  · intro h1
    simp only [generate_bundle_cached, hmiss, get_cached_by_similarity, hnear, if_pos h1,
      miss_path]
    exact ⟨trivial, trivial, trivial⟩

/-- Witness for C2 at similarity 0.8 (adapt band), distance 0.2. -/
theorem C2_threshold_bands_witness :
    (generate_bundle_cached (β := Nat) (fun _ => [])
        (get_cached_by_similarity (fun _ => some (7, 2/10, 3)))
        (fun _ => 50) (fun _ _ _ => 100) "m" ⟨"e", "t", [], []⟩ ⟨[], [], 0, 0⟩).meta =
      ⟨.semantic_adapt, some (1 - 2/10), some 3⟩ ∧
    (generate_bundle_cached (β := Nat) (fun _ => [])
        (get_cached_by_similarity (fun _ => some (7, 2/10, 3)))
        (fun _ => 50) (fun _ _ _ => 100) "m" ⟨"e", "t", [], []⟩ ⟨[], [], 0, 0⟩).bundle = 100 ∧
    (generate_bundle_cached (β := Nat) (fun _ => [])
        (get_cached_by_similarity (fun _ => some (7, 2/10, 3)))
        (fun _ => 50) (fun _ _ _ => 100) "m" ⟨"e", "t", [], []⟩ ⟨[], [], 0, 0⟩).gen_calls = 1 :=
  (C2_threshold_bands (fun _ => some (7, 2/10, 3)) (fun _ => []) (fun _ => 50)
    (fun _ _ _ => 100) "m" ⟨"e", "t", [], []⟩ ⟨[], [], 0, 0⟩ 7 (2/10) 3 rfl rfl).2.1
    (by unfold ADAPT_THRESHOLD; norm_num) (by unfold REUSE_THRESHOLD; norm_num)

/-- C9: an out-of-band similarity (below the adapt threshold) delivered by
a lookup path that did not check the band is handled as MISS: the request
does not fail, a fresh generation happens and its result is stored. -/
theorem C9_out_of_band_is_miss {β : Type} (embed_text : String → List ℚ)
    (simLookup : List ℚ → ℚ → Option (β × ℚ × Nat))
    (gen_fresh : Epic → β) (gen_adapt : Epic → β → ℚ → β)
    (model : String) (epic : Epic) (db : Store β) (b : β) (s : ℚ) (rid : Nat)
    (hmiss : get_cached_by_hash db (_hash (_normalize (_cache_input epic))) = none)
    (hlook : simLookup (embed_text (_normalize (_cache_input epic))) ADAPT_THRESHOLD =
      some (b, s, rid))
    (hlow : s < ADAPT_THRESHOLD) :
    generate_bundle_cached embed_text simLookup gen_fresh gen_adapt model epic db =
      miss_path gen_fresh model epic (_cache_input epic) (_normalize (_cache_input epic))
        (_hash (_normalize (_cache_input epic)))
        (embed_text (_normalize (_cache_input epic))) db ∧
    (generate_bundle_cached embed_text simLookup gen_fresh gen_adapt model epic db).meta =
      ⟨.miss, none, none⟩ ∧
    (generate_bundle_cached embed_text simLookup gen_fresh gen_adapt model epic db).bundle =
      gen_fresh epic ∧
    (generate_bundle_cached embed_text simLookup gen_fresh gen_adapt model epic db).gen_calls
      = 1 := by
  have hAR : ADAPT_THRESHOLD < REUSE_THRESHOLD := by
    unfold ADAPT_THRESHOLD REUSE_THRESHOLD
    norm_num
  have hnotreuse : ¬(REUSE_THRESHOLD ≤ s) := not_le.mpr (hlow.trans hAR)
  have hnotband : ¬(ADAPT_THRESHOLD ≤ s ∧ s < REUSE_THRESHOLD) := by
    intro hcon
    exact absurd hcon.1 (not_le.mpr hlow)
  have hmain : generate_bundle_cached embed_text simLookup gen_fresh gen_adapt model epic db =
      miss_path gen_fresh model epic (_cache_input epic) (_normalize (_cache_input epic))
        (_hash (_normalize (_cache_input epic)))
        (embed_text (_normalize (_cache_input epic))) db := by
    simp only [generate_bundle_cached, hmiss, hlook, if_neg hnotreuse, if_neg hnotband]
  exact ⟨hmain, by rw [hmain]; rfl, by rw [hmain]; rfl, by rw [hmain]; rfl⟩

/-- Witness for C9: a degenerate lookup reporting similarity 1/2. -/
theorem C9_out_of_band_is_miss_witness :
    (generate_bundle_cached (β := Nat) (fun _ => []) (fun _ _ => some (7, 1/2, 3))
        (fun _ => 50) (fun _ _ _ => 100) "m" ⟨"e", "t", [], []⟩ ⟨[], [], 0, 0⟩).meta =
      ⟨.miss, none, none⟩ ∧
    (generate_bundle_cached (β := Nat) (fun _ => []) (fun _ _ => some (7, 1/2, 3))
        (fun _ => 50) (fun _ _ _ => 100) "m" ⟨"e", "t", [], []⟩ ⟨[], [], 0, 0⟩).bundle = 50 ∧
    (generate_bundle_cached (β := Nat) (fun _ => []) (fun _ _ => some (7, 1/2, 3))
        (fun _ => 50) (fun _ _ _ => 100) "m" ⟨"e", "t", [], []⟩ ⟨[], [], 0, 0⟩).gen_calls = 1 :=
  ⟨(C9_out_of_band_is_miss (fun _ => []) (fun _ _ => some (7, 1/2, 3)) (fun _ => 50)
      (fun _ _ _ => 100) "m" ⟨"e", "t", [], []⟩ ⟨[], [], 0, 0⟩ 7 (1/2) 3 rfl rfl
      (by unfold ADAPT_THRESHOLD; norm_num)).2.1,
    (C9_out_of_band_is_miss (fun _ => []) (fun _ _ => some (7, 1/2, 3)) (fun _ => 50)
      (fun _ _ _ => 100) "m" ⟨"e", "t", [], []⟩ ⟨[], [], 0, 0⟩ 7 (1/2) 3 rfl rfl
      (by unfold ADAPT_THRESHOLD; norm_num)).2.2.1,
    (C9_out_of_band_is_miss (fun _ => []) (fun _ _ => some (7, 1/2, 3)) (fun _ => 50)
      (fun _ _ _ => 100) "m" ⟨"e", "t", [], []⟩ ⟨[], [], 0, 0⟩ 7 (1/2) 3 rfl rfl
      (by unfold ADAPT_THRESHOLD; norm_num)).2.2.2⟩


/-- C3: the Quality Gate computes each story's aggregate score as
`clamp(1, 5, mean(six INVEST sub-scores) - 0.2*#invest_issues
- 0.3*#hard_violations_mentioning_story - 0.05*#ambiguities_mentioning_story)`
("mentioning" = substring containment of the story id, as Python's `in`),
and the run-level score as the arithmetic mean of the per-story
aggregates, 0 when the story list is empty. -/
theorem C3_quality_gate_formula (validate_all check_trace : Bool × List String)
    (ambiguities : List String) (score_story_invest : UserStory → InvestScores × List String)
    (stories : List UserStory) :
    (build_quality_reports validate_all check_trace ambiguities score_story_invest
        stories).1.map QualityReport.overall_score =
      stories.map (fun st =>
        spec_story_score (score_story_invest st).1 (score_story_invest st).2.length
          ((validate_all.2 ++ check_trace.2).filter
            (fun v => strContains v st.story_id)).length
          (ambiguities.filter (fun a => strContains a st.story_id)).length) ∧
    (build_quality_reports validate_all check_trace ambiguities score_story_invest
        stories).2.2.2 =
      spec_run_score ((build_quality_reports validate_all check_trace ambiguities
        score_story_invest stories).1.map QualityReport.overall_score) := by
  have hone : ∀ st : UserStory,
      (max 1 (min 5
        (((score_story_invest st).1.I + (score_story_invest st).1.N +
          (score_story_invest st).1.V + (score_story_invest st).1.E +
          (score_story_invest st).1.S + (score_story_invest st).1.T) / 6 -
          ((2/10 : ℚ) * (score_story_invest st).2.length
            + (3/10) * ((validate_all.2 ++ check_trace.2).filter
                (fun v => strContains v st.story_id)).length
            + (5/100) * (ambiguities.filter
                (fun a => strContains a st.story_id)).length))) : ℚ) =
      spec_story_score (score_story_invest st).1 (score_story_invest st).2.length
        ((validate_all.2 ++ check_trace.2).filter
          (fun v => strContains v st.story_id)).length
        (ambiguities.filter (fun a => strContains a st.story_id)).length := by
    intro st
    unfold spec_story_score clamp
    congr 2
    ring
  have hfst : (build_quality_reports validate_all check_trace ambiguities score_story_invest
      stories).1.map QualityReport.overall_score =
      stories.map (fun st =>
        spec_story_score (score_story_invest st).1 (score_story_invest st).2.length
          ((validate_all.2 ++ check_trace.2).filter
            (fun v => strContains v st.story_id)).length
          (ambiguities.filter (fun a => strContains a st.story_id)).length) := by
    simp only [build_quality_reports, List.map_map]
    apply List.map_congr_left
    intro st _
    exact hone st
  refine ⟨hfst, ?_⟩
  rw [hfst]
  have hsnd : (build_quality_reports validate_all check_trace ambiguities score_story_invest
      stories).2.2.2 =
      (stories.map (fun st =>
        spec_story_score (score_story_invest st).1 (score_story_invest st).2.length
          ((validate_all.2 ++ check_trace.2).filter
            (fun v => strContains v st.story_id)).length
          (ambiguities.filter (fun a => strContains a st.story_id)).length)).sum /
      ((max 1 stories.length : ℕ) : ℚ) := by
    simp only [build_quality_reports, List.map_map, List.length_map]
    congr 1
    · congr 1
      apply List.map_congr_left
      intro st _
      exact hone st
  rw [hsnd]
  cases stories with
  | nil => simp [spec_run_score]
  | cons s0 rest =>
    have hlen : (max 1 (s0 :: rest).length : ℕ) = (s0 :: rest).length :=
      Nat.max_eq_right (by simp)
    rw [hlen]
    have hne : (s0 :: rest).map (fun st =>
        spec_story_score (score_story_invest st).1 (score_story_invest st).2.length
          ((validate_all.2 ++ check_trace.2).filter
            (fun v => strContains v st.story_id)).length
          (ambiguities.filter (fun a => strContains a st.story_id)).length) ≠ [] := by
      simp
    rw [spec_run_score, if_neg hne]
    simp

/-- C4: storing bundle `B` under a fingerprint that has no bundle artifact
yet, then requesting an Epic that normalizes to that fingerprint, returns
exactly `B` with decision HASH_HIT, makes zero generative calls and leaves
the store unchanged. -/
theorem C4_exact_cache_roundtrip {β : Type} (embed_text : String → List ℚ)
    (simLookup : List ℚ → ℚ → Option (β × ℚ × Nat)) (gen_fresh : Epic → β)
    (gen_adapt : Epic → β → ℚ → β) (model : String) (epic : Epic) (db : Store β)
    (B : β) (raw norm : String) (emb : Option (List ℚ)) (mdl pv : String)
    (ch : Option String) (sim : Option ℚ) (src : Option Nat) (pol : Option String)
    (hWF : ∀ a ∈ db.arts, a.requirement_id < db.nextReqId)
    (hfree : db.noBundleFor (_hash (_normalize (_cache_input epic))) = true) :
    generate_bundle_cached embed_text simLookup gen_fresh gen_adapt model epic
        (store_bundle db raw norm (_hash (_normalize (_cache_input epic))) emb B mdl pv
          ch sim src pol) =
      ⟨B, ⟨.hash, none, none⟩,
        store_bundle db raw norm (_hash (_normalize (_cache_input epic))) emb B mdl pv
          ch sim src pol, 0⟩ := by
  have hget : get_cached_by_hash
      (store_bundle db raw norm (_hash (_normalize (_cache_input epic))) emb B mdl pv
        ch sim src pol) (_hash (_normalize (_cache_input epic))) = some B := by
    cases hr : db.reqs.find?
        (fun r => r.text_hash == _hash (_normalize (_cache_input epic))) with
    | some r =>
      simp only [Store.noBundleFor, hr, Option.isNone_iff_eq_none] at hfree
      simp only [store_bundle, hr, hfree, get_cached_by_hash, List.find?_append,
        Option.none_or]
      simp [List.find?]
    | none =>
      have harts : db.arts.find? (fun a => a.requirement_id == db.nextReqId) = none := by
        rw [List.find?_eq_none]
        intro a ha
        simp only [beq_iff_eq]
        exact Nat.ne_of_lt (hWF a ha)
      simp only [store_bundle, hr, get_cached_by_hash, List.find?_append, harts,
        Option.none_or]
      simp [List.find?_cons, harts]
  simp only [generate_bundle_cached, hget]

/-- Witness for C4: an empty store, then a store-then-request round trip. -/
theorem C4_exact_cache_roundtrip_witness :
    generate_bundle_cached (β := Nat) (fun _ => []) (fun _ _ => none) (fun _ => 50)
        (fun _ _ _ => 100) "m" ⟨"e", "t", [], []⟩
        (store_bundle ⟨[], [], 0, 0⟩ "raw" "norm"
          (_hash (_normalize (_cache_input ⟨"e", "t", [], []⟩))) none 42 "m" "v1"
          none none none none) =
      ⟨42, ⟨.hash, none, none⟩,
        store_bundle ⟨[], [], 0, 0⟩ "raw" "norm"
          (_hash (_normalize (_cache_input ⟨"e", "t", [], []⟩))) none 42 "m" "v1"
          none none none none, 0⟩ :=
  C4_exact_cache_roundtrip (fun _ => []) (fun _ _ => none) (fun _ => 50) (fun _ _ _ => 100)
    "m" ⟨"e", "t", [], []⟩ ⟨[], [], 0, 0⟩ 42 "raw" "norm" none "m" "v1" none none none none
    (by intro a ha; simp at ha) rfl

/-- C5: `store_bundle` is first-write-wins at the artifact level: with a
bundle artifact already present for the hash's requirement the call leaves
the store exactly unchanged; with a requirement but no artifact it only
appends one new bundle artifact; with no requirement it appends the
requirement row and its bundle artifact together. -/
theorem C5_store_bundle_first_write_wins {β : Type} (db : Store β)
    (raw norm F : String) (emb : Option (List ℚ)) (B : β) (mdl pv : String)
    (ch : Option String) (sim : Option ℚ) (src : Option Nat) (pol : Option String) :
    (∀ r, db.reqs.find? (fun q => q.text_hash == F) = some r →
      (∃ a ∈ db.arts, a.requirement_id = r.id ∧ a.output_type = "bundle") →
      store_bundle db raw norm F emb B mdl pv ch sim src pol = db) ∧
    (∀ r, db.reqs.find? (fun q => q.text_hash == F) = some r →
      db.arts.find? (fun a => a.requirement_id == r.id) = none →
      (store_bundle db raw norm F emb B mdl pv ch sim src pol).reqs = db.reqs ∧
      (store_bundle db raw norm F emb B mdl pv ch sim src pol).arts =
        db.arts ++ [⟨db.nextArtId, r.id, "bundle", B, mdl, pv,
          ⟨ch, sim, src, pol, pv, mdl⟩⟩]) ∧
    (db.reqs.find? (fun q => q.text_hash == F) = none →
      (store_bundle db raw norm F emb B mdl pv ch sim src pol).reqs =
        db.reqs ++ [⟨db.nextReqId, raw, norm, F, emb⟩] ∧
      (store_bundle db raw norm F emb B mdl pv ch sim src pol).arts =
        db.arts ++ [⟨db.nextArtId, db.nextReqId, "bundle", B, mdl, pv,
          ⟨ch, sim, src, pol, pv, mdl⟩⟩]) := by
  refine ⟨?_, ?_, ?_⟩
  · intro r hr hex
    obtain ⟨a, ha, hid, _⟩ := hex
    have hsome : (db.arts.find? (fun x => x.requirement_id == r.id)).isSome := by
      rw [List.find?_isSome]
      exact ⟨a, ha, by simp [hid]⟩
    obtain ⟨v, hv⟩ := Option.isSome_iff_exists.mp hsome
    simp only [store_bundle, hr, hv]
  · intro r hr hnone
    simp only [store_bundle, hr, hnone]
    exact ⟨trivial, trivial⟩
  · intro hr
    simp only [store_bundle, hr]
    exact ⟨trivial, trivial⟩

/-- Witness for C5: the three store states exercised concretely
(existing requirement with a bundle artifact / without any artifact /
absent requirement). -/
theorem C5_store_bundle_first_write_wins_witness :
    store_bundle (β := Nat)
        ⟨[⟨0, "r", "n", "F", none⟩], [⟨0, 0, "bundle", 7, "m", "v", ⟨none, none, none, none, "v", "m"⟩⟩], 1, 1⟩
        "x" "y" "F" none 42 "m2" "v2" none none none none =
      ⟨[⟨0, "r", "n", "F", none⟩], [⟨0, 0, "bundle", 7, "m", "v", ⟨none, none, none, none, "v", "m"⟩⟩], 1, 1⟩ ∧
    ((store_bundle (β := Nat) ⟨[⟨0, "r", "n", "F", none⟩], [], 1, 0⟩
        "x" "y" "F" none 42 "m2" "v2" none none none none).reqs =
      [⟨0, "r", "n", "F", none⟩] ∧
     (store_bundle (β := Nat) ⟨[⟨0, "r", "n", "F", none⟩], [], 1, 0⟩
        "x" "y" "F" none 42 "m2" "v2" none none none none).arts =
      [] ++ [⟨0, 0, "bundle", 42, "m2", "v2", ⟨none, none, none, none, "v2", "m2"⟩⟩]) ∧
    ((store_bundle (β := Nat) ⟨[], [], 0, 0⟩
        "x" "y" "F" none 42 "m2" "v2" none none none none).reqs =
      [] ++ [⟨0, "x", "y", "F", none⟩] ∧
     (store_bundle (β := Nat) ⟨[], [], 0, 0⟩
        "x" "y" "F" none 42 "m2" "v2" none none none none).arts =
      [] ++ [⟨0, 0, "bundle", 42, "m2", "v2", ⟨none, none, none, none, "v2", "m2"⟩⟩]) :=
  ⟨(C5_store_bundle_first_write_wins
      ⟨[⟨0, "r", "n", "F", none⟩], [⟨0, 0, "bundle", 7, "m", "v", ⟨none, none, none, none, "v", "m"⟩⟩], 1, 1⟩
      "x" "y" "F" none 42 "m2" "v2" none none none none).1 ⟨0, "r", "n", "F", none⟩
      (by decide) ⟨⟨0, 0, "bundle", 7, "m", "v", ⟨none, none, none, none, "v", "m"⟩⟩,
        by decide, rfl, rfl⟩,
   (C5_store_bundle_first_write_wins ⟨[⟨0, "r", "n", "F", none⟩], [], 1, 0⟩
      "x" "y" "F" none 42 "m2" "v2" none none none none).2.1 ⟨0, "r", "n", "F", none⟩
      (by decide) rfl,
   (C5_store_bundle_first_write_wins ⟨[], [], 0, 0⟩
      "x" "y" "F" none 42 "m2" "v2" none none none none).2.2 rfl⟩


/-! ### Orchestrator loop lemmas (for claims C1, C6, C7) -/

/-- Invariant of the loop's Best-Result Pointer: it is seeded with the
iteration-0 requirement set and thereafter overwritten only by a
hard-constraint-satisfying iteration scoring at least the current best. -/
theorem run_iters_best_invariant {ρ : Type} (critic : Nat → ρ → Except String Critique)
    (refine : Nat → ρ → Critique → Except String ρ) (scoreErrs : Nat → ρ → Bool)
    (hardOf : ρ → Bool) (avgOf : ρ → ℚ) (target : ℚ) (req0 : ρ) :
    ∀ (remaining it : Nat) (req best : ρ) (bscore : ℚ) (audit : List AuditEvent),
      (best = req0 ∨ hardOf best = true) → bscore = avgOf best → avgOf req0 ≤ bscore →
      (((run_iters critic refine scoreErrs hardOf avgOf target it remaining req best bscore
          audit).best_req = req0 ∨
        hardOf (run_iters critic refine scoreErrs hardOf avgOf target it remaining req best
          bscore audit).best_req = true) ∧
       (run_iters critic refine scoreErrs hardOf avgOf target it remaining req best bscore
          audit).best_score =
         avgOf (run_iters critic refine scoreErrs hardOf avgOf target it remaining req best
          bscore audit).best_req ∧
       avgOf req0 ≤ (run_iters critic refine scoreErrs hardOf avgOf target it remaining req
          best bscore audit).best_score) := by
  intro remaining
  induction remaining with
  | zero =>
    intro it req best bscore audit h1 h2 h3
    simp only [run_iters]
    exact ⟨h1, h2, h3⟩
  | succ rem ih =>
    intro it req best bscore audit h1 h2 h3
    simp only [run_iters]
    cases hc : critic it req with
    | error e => exact ⟨h1, h2, h3⟩
    | ok crit =>
      simp only [hc]
      by_cases hs : crit.should_iterate = false
      · rw [if_pos hs]
        exact ⟨h1, h2, h3⟩
      · rw [if_neg hs]
        cases hrf : refine it req crit with
        | error e => exact ⟨h1, h2, h3⟩
        | ok req2 =>
          simp only [hrf]
          by_cases hse : scoreErrs it req2 = true
          · rw [if_pos hse]
            exact ⟨h1, h2, h3⟩
          · rw [if_neg hse]
            have hinv : ((if hardOf req2 = true ∧ bscore ≤ avgOf req2 then req2 else best) =
                  req0 ∨
                hardOf (if hardOf req2 = true ∧ bscore ≤ avgOf req2 then req2 else best) =
                  true) ∧
                (if hardOf req2 = true ∧ bscore ≤ avgOf req2 then avgOf req2 else bscore) =
                  avgOf (if hardOf req2 = true ∧ bscore ≤ avgOf req2 then req2 else best) ∧
                avgOf req0 ≤
                  (if hardOf req2 = true ∧ bscore ≤ avgOf req2 then avgOf req2 else bscore) := by
              by_cases hP : hardOf req2 = true ∧ bscore ≤ avgOf req2
              · simp only [if_pos hP]
                exact ⟨Or.inr hP.1, by trivial, h3.trans hP.2⟩
              · simp only [if_neg hP]
                exact ⟨h1, h2, h3⟩
            by_cases hconv : hardOf req2 = true ∧ target ≤ avgOf req2
            · rw [if_pos hconv]
              exact hinv
            · rw [if_neg hconv]
              exact ih (it + 1) req2 _ _ _ hinv.1 hinv.2.1 hinv.2.2

/-- The loop only ever appends to the audit log. -/
theorem run_iters_audit_extends {ρ : Type} (critic : Nat → ρ → Except String Critique)
    (refine : Nat → ρ → Critique → Except String ρ) (scoreErrs : Nat → ρ → Bool)
    (hardOf : ρ → Bool) (avgOf : ρ → ℚ) (target : ℚ) :
    ∀ (remaining it : Nat) (req best : ρ) (bscore : ℚ) (audit : List AuditEvent),
      ∃ t, (run_iters critic refine scoreErrs hardOf avgOf target it remaining req best bscore
        audit).audit = audit ++ t := by
  intro remaining
  induction remaining with
  | zero =>
    intro it req best bscore audit
    exact ⟨[], by simp [run_iters]⟩
  | succ rem ih =>
    intro it req best bscore audit
    simp only [run_iters]
    cases hc : critic it req with
    | error e => exact ⟨[.error it], rfl⟩
    | ok crit =>
      simp only [hc]
      by_cases hs : crit.should_iterate = false
      · rw [if_pos hs]
        exact ⟨[.critique it crit.should_iterate], rfl⟩
      · rw [if_neg hs]
        cases hrf : refine it req crit with
        | error e =>
          exact ⟨[.critique it crit.should_iterate, .error it], by simp⟩
        | ok req2 =>
          simp only [hrf]
          by_cases hse : scoreErrs it req2 = true
          · rw [if_pos hse]
            exact ⟨[.critique it crit.should_iterate, .error it], by simp⟩
          · rw [if_neg hse]
            by_cases hconv : hardOf req2 = true ∧ target ≤ avgOf req2
            · rw [if_pos hconv]
              exact ⟨[.critique it crit.should_iterate,
                .iteration_result it (avgOf req2) (hardOf req2) crit.edits_count], by simp⟩
            · rw [if_neg hconv]
              obtain ⟨t, ht⟩ := ih (it + 1) req2
                (if hardOf req2 = true ∧ bscore ≤ avgOf req2 then req2 else best)
                (if hardOf req2 = true ∧ bscore ≤ avgOf req2 then avgOf req2 else bscore)
                ((audit ++ [.critique it crit.should_iterate]) ++
                  [.iteration_result it (avgOf req2) (hardOf req2) crit.edits_count])
              exact ⟨[.critique it crit.should_iterate,
                .iteration_result it (avgOf req2) (hardOf req2) crit.edits_count] ++ t,
                by rw [ht]; simp⟩

/-- In a list with one marked element appended to an unmarked prefix, any
decomposition at a marked element must split exactly at the end. -/
theorem last_marked_decomp {α : Type} (P : α → Bool) :
    ∀ (l l₁ l₂ : List α) (x y : α), (∀ z ∈ l, P z = false) → P y = true →
      l ++ [x] = l₁ ++ y :: l₂ → l₁ = l ∧ y = x ∧ l₂ = [] := by
  intro l
  induction l with
  | nil =>
    intro l₁ l₂ x y hnone hy heq
    cases l₁ with
    | nil =>
      simp only [List.nil_append] at heq
      cases heq
      exact ⟨rfl, rfl, rfl⟩
    | cons a t =>
      simp only [List.nil_append, List.cons_append, List.cons.injEq] at heq
      obtain ⟨-, h2⟩ := heq
      exact absurd h2.symm (by simp)
  | cons c cs ih =>
    intro l₁ l₂ x y hnone hy heq
    cases l₁ with
    | nil =>
      simp only [List.cons_append, List.nil_append, List.cons.injEq] at heq
      obtain ⟨h1, -⟩ := heq
      have hc := hnone c (by simp)
      rw [← h1] at hy
      rw [hc] at hy
      cases hy
    | cons a t =>
      simp only [List.cons_append, List.cons.injEq] at heq
      obtain ⟨hca, hrest⟩ := heq
      obtain ⟨ht, hyx, hl2⟩ := ih t l₂ x y (fun z hz => hnone z (by simp [hz])) hy hrest
      subst hca
      rw [ht]
      exact ⟨rfl, hyx, hl2⟩

/-- A list whose elements are all unmarked admits no decomposition at a
marked element. -/
theorem no_marked_no_decomp {α : Type} (P : α → Bool) (y : α) {l l₁ l₂ : List α}
    (hno : ∀ z ∈ l, P z = false) (hy : P y = true) (heq : l = l₁ ++ y :: l₂) : False := by
  have hmem : y ∈ l := by
    rw [heq]
    simp
  rw [hno y hmem] at hy
  cases hy

/-- If the loop's audit log shows an `error` record at iteration `k`, then
it is the final record, the loop returned the Best-Result Pointer, and no
`iteration_result` record exists for iteration `k`. -/
theorem run_iters_error_trace {ρ : Type} (critic : Nat → ρ → Except String Critique)
    (refine : Nat → ρ → Critique → Except String ρ) (scoreErrs : Nat → ρ → Bool)
    (hardOf : ρ → Bool) (avgOf : ρ → ℚ) (target : ℚ) :
    ∀ (remaining it : Nat) (req best : ρ) (bscore : ℚ) (audit : List AuditEvent),
      (∀ e ∈ audit, e.isError = false) →
      (∀ j a h ec, AuditEvent.iteration_result j a h ec ∈ audit → j < it) →
      ∀ (k : Nat) (l₁ l₂ : List AuditEvent),
        (run_iters critic refine scoreErrs hardOf avgOf target it remaining req best bscore
          audit).audit = l₁ ++ AuditEvent.error k :: l₂ →
        l₂ = [] ∧
        (run_iters critic refine scoreErrs hardOf avgOf target it remaining req best bscore
          audit).result =
          (run_iters critic refine scoreErrs hardOf avgOf target it remaining req best bscore
            audit).best_req ∧
        (∀ a h ec, AuditEvent.iteration_result k a h ec ∉ l₁) := by
  intro remaining
  induction remaining with
  | zero =>
    intro it req best bscore audit hno hit k l₁ l₂ heq
    simp only [run_iters] at heq
    exact (no_marked_no_decomp AuditEvent.isError (AuditEvent.error k) hno rfl heq).elim
  | succ rem ih =>
    intro it req best bscore audit hno hit k l₁ l₂ heq
    simp only [run_iters] at heq ⊢
    cases hc : critic it req with
    | error e =>
      simp only [hc] at heq ⊢
      obtain ⟨hl₁, hyk, hl₂⟩ := last_marked_decomp AuditEvent.isError audit l₁ l₂
        (AuditEvent.error it) (AuditEvent.error k) hno rfl heq
      have hk : k = it := by cases hyk; rfl
      subst hk hl₁
      refine ⟨hl₂, by trivial, ?_⟩
      intro a h ec hmem
      exact absurd (hit k a h ec hmem) (lt_irrefl k)
    | ok crit =>
      simp only [hc] at heq ⊢
      by_cases hs : crit.should_iterate = false
      · simp only [if_pos hs] at heq ⊢
        exfalso
        refine no_marked_no_decomp AuditEvent.isError (AuditEvent.error k) ?_ rfl heq
        intro z hz
        rcases List.mem_append.mp hz with hz1 | hz2
        · exact hno z hz1
        · simp at hz2
          subst hz2
          rfl
      · simp only [if_neg hs] at heq ⊢
        have hno2 : ∀ e ∈ audit ++ [AuditEvent.critique it crit.should_iterate],
            e.isError = false := by
          intro z hz
          rcases List.mem_append.mp hz with hz1 | hz2
          · exact hno z hz1
          · simp at hz2
            subst hz2
            rfl
        have hit2 : ∀ j a h ec, AuditEvent.iteration_result j a h ec ∈
            audit ++ [AuditEvent.critique it crit.should_iterate] → j < it := by
          intro j a h ec hmem
          rcases List.mem_append.mp hmem with hm1 | hm2
          · exact hit j a h ec hm1
          · simp at hm2
        cases hrf : refine it req crit with
        | error e =>
          simp only [hrf] at heq ⊢
          obtain ⟨hl₁, hyk, hl₂⟩ := last_marked_decomp AuditEvent.isError
            (audit ++ [AuditEvent.critique it crit.should_iterate]) l₁ l₂
            (AuditEvent.error it) (AuditEvent.error k) hno2 rfl heq
          have hk : k = it := by cases hyk; rfl
          subst hk hl₁
          refine ⟨hl₂, by trivial, ?_⟩
          intro a h ec hmem
          exact absurd (hit2 k a h ec hmem) (lt_irrefl k)
        | ok req2 =>
          simp only [hrf] at heq ⊢
          by_cases hse : scoreErrs it req2 = true
          · simp only [if_pos hse] at heq ⊢
            obtain ⟨hl₁, hyk, hl₂⟩ := last_marked_decomp AuditEvent.isError
              (audit ++ [AuditEvent.critique it crit.should_iterate]) l₁ l₂
              (AuditEvent.error it) (AuditEvent.error k) hno2 rfl heq
            have hk : k = it := by cases hyk; rfl
            subst hk hl₁
            refine ⟨hl₂, by trivial, ?_⟩
            intro a h ec hmem
            exact absurd (hit2 k a h ec hmem) (lt_irrefl k)
          · simp only [if_neg hse] at heq ⊢
            have hno3 : ∀ e ∈ (audit ++ [AuditEvent.critique it crit.should_iterate]) ++
                [AuditEvent.iteration_result it (avgOf req2) (hardOf req2) crit.edits_count],
                e.isError = false := by
              intro z hz
              rcases List.mem_append.mp hz with hz1 | hz2
              · exact hno2 z hz1
              · simp at hz2
                subst hz2
                rfl
            by_cases hconv : hardOf req2 = true ∧ target ≤ avgOf req2
            · simp only [if_pos hconv] at heq ⊢
              exact (no_marked_no_decomp AuditEvent.isError (AuditEvent.error k) hno3 rfl
                heq).elim
            · simp only [if_neg hconv] at heq ⊢
              have hit3 : ∀ j a h ec, AuditEvent.iteration_result j a h ec ∈
                  (audit ++ [AuditEvent.critique it crit.should_iterate]) ++
                    [AuditEvent.iteration_result it (avgOf req2) (hardOf req2)
                      crit.edits_count] → j < it + 1 := by
                intro j a h ec hmem
                rcases List.mem_append.mp hmem with hm1 | hm2
                · exact Nat.lt_succ_of_lt (hit2 j a h ec hm1)
                · simp at hm2
                  omega
              exact ih (it + 1) req2 _ _ _ hno3 hit3 k l₁ l₂ heq

/-- C1 counterexample: a run in which iteration 0 fails hard constraints
but scores 5, and iteration 1 satisfies hard constraints scoring 3 (below
the target 4, one allowed iteration).  The Best-Result Pointer is seeded
with iteration 0 unconditionally and never overwritten (3 < 5), so the
returned bundle is iteration 0's, which fails hard constraints even though
iteration 1 satisfied them — refuting the claim.  In the returned record,
`result = 0` is the iteration-0 requirement set (its audit record carries
`hard_ok = false`) while the audit shows iteration 1 with `hard_ok = true`. -/
theorem C1_counterexample :
    run_agentic (ρ := Nat) (fun _ _ => Except.ok ⟨true, "", 0⟩) (fun _ _ _ => Except.ok 1)
        (fun _ _ => false) (fun r => r == 1) (fun r => if r == 0 then 5 else 3)
        1 4 1 0 =
      ⟨0, [AuditEvent.iteration_result 0 5 false 0, AuditEvent.critique 1 true,
        AuditEvent.iteration_result 1 3 true 0], 0, 5⟩ ∧
    ((fun r => r == 1) : Nat → Bool)
      (run_agentic (ρ := Nat) (fun _ _ => Except.ok ⟨true, "", 0⟩) (fun _ _ _ => Except.ok 1)
        (fun _ _ => false) (fun r => r == 1) (fun r => if r == 0 then 5 else 3)
        1 4 1 0).result = false := by
  constructor
  · decide
  · decide

/-- C1 amended: the Best-Result Pointer is seeded with iteration 0's
requirement set unconditionally (even if it fails hard constraints) and is
overwritten only by iterations that satisfy hard constraints and score at
least the current best; hence at the end of any run the pointer holds
either the iteration-0 set or a hard-constraint-satisfying set, its score
is that set's score, and it is at least iteration 0's score.  The
orchestrator may therefore return a hard-failing bundle even when a later
iteration satisfied hard constraints (see the counterexample). -/
theorem C1_amended_best_pointer {ρ : Type} (critic : Nat → ρ → Except String Critique)
    (refine : Nat → ρ → Critique → Except String ρ) (scoreErrs : Nat → ρ → Bool)
    (hardOf : ρ → Bool) (avgOf : ρ → ℚ) (max_iters : Nat) (target : ℚ) (fmi : Int)
    (req0 : ρ) :
    ((run_agentic critic refine scoreErrs hardOf avgOf max_iters target fmi req0).best_req =
        req0 ∨
      hardOf (run_agentic critic refine scoreErrs hardOf avgOf max_iters target fmi
        req0).best_req = true) ∧
    (run_agentic critic refine scoreErrs hardOf avgOf max_iters target fmi req0).best_score =
      avgOf (run_agentic critic refine scoreErrs hardOf avgOf max_iters target fmi
        req0).best_req ∧
    avgOf req0 ≤
      (run_agentic critic refine scoreErrs hardOf avgOf max_iters target fmi
        req0).best_score := by
  unfold run_agentic
  by_cases h : hardOf req0 = true ∧ target ≤ avgOf req0 ∧ fmi ≤ 0
  · rw [if_pos h]
    exact ⟨Or.inl rfl, rfl, le_refl _⟩
  · rw [if_neg h]
    exact run_iters_best_invariant critic refine scoreErrs hardOf avgOf target req0
      max_iters 1 req0 req0 (avgOf req0)
      [AuditEvent.iteration_result 0 (avgOf req0) (hardOf req0) 0]
      (Or.inl rfl) rfl (le_refl _)

/-- C6: if a critique/refine/scoring step raises during a loop pass, the
run's audit log ends at the error record for that pass, the orchestrator
returns the Best-Result Pointer's bundle, and no `iteration_result` record
was emitted for the failed iteration. -/
theorem C6_failure_recovery {ρ : Type} (critic : Nat → ρ → Except String Critique)
    (refine : Nat → ρ → Critique → Except String ρ) (scoreErrs : Nat → ρ → Bool)
    (hardOf : ρ → Bool) (avgOf : ρ → ℚ) (max_iters : Nat) (target : ℚ) (fmi : Int)
    (req0 : ρ) (k : Nat) (l₁ l₂ : List AuditEvent)
    (hdec : (run_agentic critic refine scoreErrs hardOf avgOf max_iters target fmi
      req0).audit = l₁ ++ AuditEvent.error k :: l₂) :
    l₂ = [] ∧
    (run_agentic critic refine scoreErrs hardOf avgOf max_iters target fmi req0).result =
      (run_agentic critic refine scoreErrs hardOf avgOf max_iters target fmi
        req0).best_req ∧
    (∀ a h ec, AuditEvent.iteration_result k a h ec ∉ l₁) := by
  unfold run_agentic at hdec ⊢
  by_cases h : hardOf req0 = true ∧ target ≤ avgOf req0 ∧ fmi ≤ 0
  · rw [if_pos h] at hdec ⊢
    exfalso
    refine no_marked_no_decomp AuditEvent.isError (AuditEvent.error k) ?_ rfl hdec
    intro z hz
    simp at hz
    subst hz
    rfl
  · rw [if_neg h] at hdec ⊢
    refine run_iters_error_trace critic refine scoreErrs hardOf avgOf target max_iters 1
      req0 req0 (avgOf req0) [AuditEvent.iteration_result 0 (avgOf req0) (hardOf req0) 0]
      ?_ ?_ k l₁ l₂ hdec
    · intro z hz
      simp at hz
      subst hz
      rfl
    · intro j a hh ec hmem
      simp at hmem
      omega

/-- Witness for C6: the critic throws on the first pass; the returned
bundle is the pointer's and the audit ends at the error record. -/
theorem C6_failure_recovery_witness :
    (run_agentic (ρ := Nat) (fun _ _ => Except.error "boom") (fun _ _ _ => Except.ok 1)
        (fun _ _ => false) (fun _ => true) (fun _ => 4) 3 5 1 0).result =
      (run_agentic (ρ := Nat) (fun _ _ => Except.error "boom") (fun _ _ _ => Except.ok 1)
        (fun _ _ => false) (fun _ => true) (fun _ => 4) 3 5 1 0).best_req ∧
    AuditEvent.iteration_result 1 4 true 0 ∉
      [AuditEvent.iteration_result 0 4 true 0] :=
  ⟨(C6_failure_recovery (fun _ _ => Except.error "boom") (fun _ _ _ => Except.ok 1)
      (fun _ _ => false) (fun _ => true) (fun _ => 4) 3 5 1 0 1
      [AuditEvent.iteration_result 0 4 true 0] [] (by decide)).2.1,
    (C6_failure_recovery (fun _ _ => Except.error "boom") (fun _ _ _ => Except.ok 1)
      (fun _ _ => false) (fun _ => true) (fun _ => 4) 3 5 1 0 1
      [AuditEvent.iteration_result 0 4 true 0] [] (by decide)).2.2 4 true 0⟩

/-- C7 counterexample: with `forceMinIterations = 2` and a run converging
from iteration 0 on (hard constraints satisfied, score 5 ≥ target 4),
only ONE critique/refine pass executes: the counter is never decremented
or re-checked inside the loop, so the floor is not enforced for N = 2.
The audit contains exactly one `critique` record (= one pass entered). -/
theorem C7_counterexample :
    run_agentic (ρ := Nat) (fun _ _ => Except.ok ⟨true, "", 0⟩) (fun _ _ _ => Except.ok 1)
        (fun _ _ => false) (fun _ => true) (fun _ => 5) 3 4 2 0 =
      ⟨1, [AuditEvent.iteration_result 0 5 true 0, AuditEvent.critique 1 true,
        AuditEvent.iteration_result 1 5 true 0], 1, 5⟩ ∧
    (run_agentic (ρ := Nat) (fun _ _ => Except.ok ⟨true, "", 0⟩) (fun _ _ _ => Except.ok 1)
        (fun _ _ => false) (fun _ => true) (fun _ => 5) 3 4 2 0).audit.countP
      AuditEvent.isCritique = 1 ∧ (1 : Nat) < 2 := by
  refine ⟨by decide, by decide, by decide⟩

/-- C7 amended: a positive `forceMinIterations` only disables the
iteration-0 early return: with `forceMinIterations ≥ 1` and
`maxIterations ≥ 1` at least one critique/refine pass starts (the audit
log's second record is an iteration-1 `critique` or `error` record), even
when iteration 0 already converged; the counter is never decremented, so
no floor above one pass is enforced. -/
theorem C7_amended_min_one_pass {ρ : Type} (critic : Nat → ρ → Except String Critique)
    (refine : Nat → ρ → Critique → Except String ρ) (scoreErrs : Nat → ρ → Bool)
    (hardOf : ρ → Bool) (avgOf : ρ → ℚ) (max_iters : Nat) (target : ℚ) (fmi : Int)
    (req0 : ρ) (hfmi : 1 ≤ fmi) (hmax : 1 ≤ max_iters) :
    (∃ b, (run_agentic critic refine scoreErrs hardOf avgOf max_iters target fmi
        req0).audit[1]? = some (AuditEvent.critique 1 b)) ∨
      (run_agentic critic refine scoreErrs hardOf avgOf max_iters target fmi
        req0).audit[1]? = some (AuditEvent.error 1) := by
  unfold run_agentic
  have hno : ¬(hardOf req0 = true ∧ target ≤ avgOf req0 ∧ fmi ≤ 0) := by
    rintro ⟨-, -, hle⟩
    omega
  rw [if_neg hno]
  obtain ⟨r, rfl⟩ : ∃ r, max_iters = r + 1 := ⟨max_iters - 1, by omega⟩
  simp only [run_iters]
  cases hc : critic 1 req0 with
  | error e =>
    right
    rfl
  | ok crit =>
    simp only [hc]
    by_cases hs : crit.should_iterate = false
    · rw [if_pos hs]
      left
      exact ⟨crit.should_iterate, rfl⟩
    · rw [if_neg hs]
      cases hrf : refine 1 req0 crit with
      | error e =>
        left
        exact ⟨crit.should_iterate, rfl⟩
      | ok req2 =>
        simp only [hrf]
        by_cases hse : scoreErrs 1 req2 = true
        · rw [if_pos hse]
          left
          exact ⟨crit.should_iterate, rfl⟩
        · rw [if_neg hse]
          by_cases hconv : hardOf req2 = true ∧ target ≤ avgOf req2
          · rw [if_pos hconv]
            left
            exact ⟨crit.should_iterate, rfl⟩
          · rw [if_neg hconv]
            obtain ⟨t, ht⟩ := run_iters_audit_extends critic refine scoreErrs hardOf avgOf
              target r 2 req2
              (if hardOf req2 = true ∧ avgOf req0 ≤ avgOf req2 then req2 else req0)
              (if hardOf req2 = true ∧ avgOf req0 ≤ avgOf req2 then avgOf req2
                else avgOf req0)
              (([AuditEvent.iteration_result 0 (avgOf req0) (hardOf req0) 0] ++
                [AuditEvent.critique 1 crit.should_iterate]) ++
                [AuditEvent.iteration_result 1 (avgOf req2) (hardOf req2) crit.edits_count])
            left
            refine ⟨crit.should_iterate, ?_⟩
            rw [ht]
            rfl

/-- Witness for C7 amended: one forced pass at a converged iteration 0. -/
theorem C7_amended_min_one_pass_witness :
    (∃ b, (run_agentic (ρ := Nat) (fun _ _ => Except.ok ⟨true, "", 0⟩)
        (fun _ _ _ => Except.ok 1) (fun _ _ => false) (fun _ => true) (fun _ => 5)
        1 4 1 0).audit[1]? = some (AuditEvent.critique 1 b)) ∨
      (run_agentic (ρ := Nat) (fun _ _ => Except.ok ⟨true, "", 0⟩)
        (fun _ _ _ => Except.ok 1) (fun _ _ => false) (fun _ => true) (fun _ => 5)
        1 4 1 0).audit[1]? = some (AuditEvent.error 1) :=
  C7_amended_min_one_pass (fun _ _ => Except.ok ⟨true, "", 0⟩) (fun _ _ _ => Except.ok 1)
    (fun _ _ => false) (fun _ => true) (fun _ => 5) 1 4 1 0 (by decide) (by decide)


end Dissertation
